import Mathlib

/-!
Verification of the dmote-fw firmware core against its specification.

The definitions below are shallow embeddings of the Rust sources:
machine integers become Nat with explicit wrapping arithmetic where the
source wraps, fallible pushes become total functions with the source's
silent-drop semantics, and iterators become structural recursion over
lists.  Sources embedded here:

  - firmware/src/lib.rs: KeyEvent (packed wire frame, msb0 bit
    numbering), QuickDraw and QuickDraw::step (the emitting debouncer).
    src/lib.rs holds an identical copy of KeyEvent.
  - fw/src/trigger.rs: the const-generic QuickDraw (no emitted events,
    u8 timestamps) with is_pressed, embedded in namespace trigger.
  - fw/src/scan.rs: report (and the event derivation of scan), embedded
    in namespace scan.
  - fw/src/bin/left.rs and fw/src/bin/right.rs: the per-event packing in
    tick and the decoding in uart_rx.
  - firmware/keyberon/src/layout.rs with keyberon/src/action.rs: the
    layout engine, embedded in namespace keyb.
-/

/-- Wrapping subtraction of u32 values: u32::wrapping_sub lifted to Nat. -/
def wrapSub32 (a b : Nat) : Nat :=
  (a + 4294967296 - b % 4294967296) % 4294967296

/-- Wrapping subtraction of u8 values: u8::wrapping_sub lifted to Nat. -/
def wrapSub8 (a b : Nat) : Nat :=
  (a + 256 - b % 256) % 256

/-- KeyEvent from firmware/src/lib.rs (and src/lib.rs): the packed wire
frame with fields row (3 bits), col (3 bits) and brk (1 bit). -/
structure KeyEvent where
  row : Nat
  col : Nat
  brk : Bool
deriving DecidableEq, Repr

/-- KeyEvent::pack: packed_struct with bit_numbering msb0 places row at
msb0 bits 0..=2 (the three most significant bits of the octet), col at
msb0 bits 3..=5, and brk at msb0 bit 7 (the least significant bit).
Fields are masked to their declared 3-bit width. -/
def KeyEvent.pack (e : KeyEvent) : Nat :=
  (e.row % 8) * 32 + (e.col % 8) * 4 + (if e.brk then 1 else 0)

/-- KeyEvent::unpack: reads the msb0 fields back out of the octet. -/
def KeyEvent.unpack (b : Nat) : KeyEvent :=
  { row := b / 32 % 8, col := b / 4 % 8, brk := b % 2 == 1 }

/-- QuickDraw from firmware/src/lib.rs: the debouncer state. -/
inductive QuickDraw where
  | Stable (b : Bool)
  | Bouncing (prior current : Bool) (since : Nat)
deriving DecidableEq, Repr

/-- QuickDraw::step from firmware/src/lib.rs: advances the state machine
on one sample and returns the new state together with the emitted event
(some true = press edge, some false = release edge). -/
def QuickDraw.step (q : QuickDraw) (state : Bool) (now stable_time : Nat) :
    QuickDraw × Option Bool :=
  match q with
  | .Stable prior =>
    if state ≠ prior then
      (.Bouncing prior state now, some state)
    else
      (.Stable prior, none)
  | .Bouncing prior current since =>
    if state ≠ current then
      (.Bouncing prior state now, none)
    else if wrapSub32 now since < stable_time then
      (.Bouncing prior current since, none)
    else
      (.Stable current, if prior = current then some current else none)

/-- Feed a list of samples to one debouncer cell at successive ticks
t, t+1, ..., collecting the emitted edges in order (the per-cell view of
keys_from_scan driven once per scan interrupt). -/
def runFrom (q : QuickDraw) (t : Nat) (ss : List Bool) (T : Nat) :
    QuickDraw × List Bool :=
  match ss with
  | [] => (q, [])
  | s :: rest =>
    let st := QuickDraw.step q s t T
    let r := runFrom st.1 (t + 1) rest T
    (r.1, st.2.toList ++ r.2)

/-- Feed a list of (sample, tick) pairs to one debouncer cell, collecting
the emitted edges in order. -/
def runPairs (q : QuickDraw) (ps : List (Bool × Nat)) (T : Nat) :
    QuickDraw × List Bool :=
  match ps with
  | [] => (q, [])
  | (s, now) :: rest =>
    let st := QuickDraw.step q s now T
    let r := runPairs st.1 rest T
    (r.1, st.2.toList ++ r.2)

/-- Number of transitions (adjacent unequal pairs) in a raw sample
sequence. -/
def transitions : List Bool → Nat
  | [] => 0
  | [_] => 0
  | a :: b :: rest => (if a ≠ b then 1 else 0) + transitions (b :: rest)

/-- One step of net-effect cancellation: an edge cancels against an
opposite edge on top of the pending stack, otherwise it is pushed. -/
def cancelStep (st : List Bool) (e : Bool) : List Bool :=
  match st with
  | [] => [e]
  | x :: rest => if x = e then e :: x :: rest else rest

/-- Net effect of a list of emitted edges: every edge cancelled by a
later opposite edge is removed, what remains is the uncancelled edges. -/
def cancelEdges (es : List Bool) : List Bool :=
  es.foldl cancelStep []

/-- The logical level a debouncer state reports: the stable value, or the
speculative (negated prior) value while bouncing.  This coincides with
trigger.rs is_pressed and is the abstraction the emitted edges track. -/
def QuickDraw.level : QuickDraw → Bool
  | .Stable b => b
  | .Bouncing prior _ _ => !prior

/-- The most recently observed sample of a debouncer state. -/
def QuickDraw.lastSample : QuickDraw → Bool
  | .Stable b => b
  | .Bouncing _ current _ => current

/-- Accounting device for the edge-count bound: a Bouncing state whose
current sample has returned to the prior stable value owes one pending
emission that was not paid for by a sample transition. -/
def QuickDraw.slack : QuickDraw → Nat
  | .Stable _ => 0
  | .Bouncing prior current _ => if prior = current then 1 else 0

/-- Alternation predicate: each edge in the list is the negation of the
level before it. -/
def altFrom : Bool → List Bool → Prop
  | _, [] => True
  | l, e :: rest => e = !l ∧ altFrom (!l) rest

namespace trigger

/-- QuickDraw from fw/src/trigger.rs: same two variants, but the since
timestamp is a u8 and the stable window T is a const generic. -/
inductive QuickDraw where
  | Stable (b : Bool)
  | Bouncing (prior current : Bool) (since : Nat)
deriving DecidableEq, Repr

/-- QuickDraw::is_pressed from fw/src/trigger.rs: a Stable state is
pressed at its value, a Bouncing state at the negation of its prior
stable value. -/
def QuickDraw.is_pressed : QuickDraw → Bool
  | .Stable pressed => pressed
  | .Bouncing prior _ _ => !prior

/-- QuickDraw::step from fw/src/trigger.rs: advances the state machine on
one sample; this variant emits nothing and uses u8 wrapping time. -/
def QuickDraw.step (T : Nat) (q : QuickDraw) (state : Bool) (now : Nat) :
    QuickDraw :=
  match q with
  | .Stable prior =>
    if state ≠ prior then .Bouncing prior state now else .Stable prior
  | .Bouncing prior current since =>
    if state ≠ current then .Bouncing prior state now
    else if wrapSub8 now since < T then .Bouncing prior current since
    else .Stable current

end trigger

namespace scan

/-- The press/release event fw/src/scan.rs derives for the log from an
old and a new debouncer state: none when is_pressed is unchanged, else
the new is_pressed value (true = Press, false = Release). -/
def pressRelease (old new : trigger.QuickDraw) : Option Bool :=
  if old.is_pressed = new.is_pressed then none
  else some new.is_pressed

/-- Modelled from the spec: the keycode lookup of fw/src/key_code.rs is
not under src/; per the spec a layout is a static table indexed by row
and column with out-of-bounds cells absent.  Keycodes are represented as
Nat since the KeyCode enum is also not under src/. -/
def keycode (layout : List (List Nat)) (row col : Nat) : Option Nat :=
  (layout.get? row).bind fun r => r.get? col

/-- Inner loop of fw/src/scan.rs report over one column's triggers: a
cell whose trigger is_pressed contributes its keycode to the report.
KbHidReport::pressed is modelled from the spec as collecting the held
keycode into the report, here a list. -/
def reportRow (layout : List (List Nat)) (col : Nat) :
    Nat → List trigger.QuickDraw → List Nat → List Nat
  | _, [], rep => rep
  | row, trig :: rest, rep =>
    reportRow layout col (row + 1) rest
      (if trig.is_pressed then
        match keycode layout row col with
        | some kc => rep ++ [kc]
        | none => rep
      else rep)

/-- Outer loop of fw/src/scan.rs report over the columns of triggers. -/
def reportCols (layout : List (List Nat)) :
    Nat → List (List trigger.QuickDraw) → List Nat → List Nat
  | _, [], rep => rep
  | col, tr :: rest, rep =>
    reportCols layout (col + 1) rest (reportRow layout col 0 tr rep)

/-- report from fw/src/scan.rs: build the HID report from the full
trigger matrix (column-major, as the source iterates). -/
def report (layout : List (List Nat))
    (triggers : List (List trigger.QuickDraw)) : List Nat :=
  reportCols layout 0 triggers []

/-- Abstracted inner report loop over the is_pressed values only, used
to state that report depends on the triggers only through is_pressed. -/
def reportRowHeld (layout : List (List Nat)) (col : Nat) :
    Nat → List Bool → List Nat → List Nat
  | _, [], rep => rep
  | row, held :: rest, rep =>
    reportRowHeld layout col (row + 1) rest
      (if held then
        match keycode layout row col with
        | some kc => rep ++ [kc]
        | none => rep
      else rep)

/-- Abstracted outer report loop over the is_pressed values only. -/
def reportColsHeld (layout : List (List Nat)) :
    Nat → List (List Bool) → List Nat → List Nat
  | _, [], rep => rep
  | col, tr :: rest, rep =>
    reportColsHeld layout (col + 1) rest (reportRowHeld layout col 0 tr rep)

/-- report computed from the matrix of is_pressed values alone. -/
def reportHeld (layout : List (List Nat)) (held : List (List Bool)) :
    List Nat :=
  reportColsHeld layout 0 held []

end scan

namespace fwkeyb

/-- LogicalState from fw/keyberon/src/layout.rs. -/
inductive LogicalState where
  | Press
  | Release
deriving DecidableEq, Repr

/-- Event from fw/keyberon/src/layout.rs: a coordinate with a press or
release state. -/
structure Event where
  coord : Nat × Nat
  state : LogicalState
deriving DecidableEq, Repr

end fwkeyb

/-- The per-event KeyEvent construction inside tick in
fw/src/bin/left.rs: brk is set when the event state is Press, row from
coord.0 and col from coord.1. -/
def tick_pack_event (e : fwkeyb.Event) : KeyEvent :=
  { brk := e.state = fwkeyb.LogicalState.Press
    row := e.coord.1
    col := e.coord.2 }

/-- The decoding inside uart_rx in fw/src/bin/right.rs: unpack the
received byte and map brk = true to Press, brk = false to Release. -/
def uart_rx_decode (b : Nat) : fwkeyb.Event :=
  let k := KeyEvent.unpack b
  { coord := (k.row, k.col)
    state := if k.brk then .Press else .Release }

namespace keyb

/-- Action from keyberon/src/action.rs, restricted to the variants
handled by Layout::do_action in firmware/keyberon/src/layout.rs.
Keycodes are represented as Nat since the KeyCode enum is not under
src/. -/
inductive Action where
  | NoOp
  | Trans
  | KeyCode (kc : Nat)
  | MultipleKeyCodes (v : List Nat)
  | Layer (value : Nat)
  | DefaultLayer (value : Nat)
deriving DecidableEq, Repr

/-- State from firmware/keyberon/src/layout.rs: an active stack entry. -/
inductive State where
  | NormalKey (keycode : Nat) (coord : Nat × Nat)
  | LayerModifier (value : Nat) (coord : Nat × Nat)
deriving DecidableEq, Repr

/-- State::keycode. -/
def State.keycode : State → Option Nat
  | .NormalKey kc _ => some kc
  | _ => none

/-- State::release: drop the state when its coord matches. -/
def State.release (s : State) (c : Nat × Nat) : Option State :=
  match s with
  | .NormalKey _ coord => if coord = c then none else some s
  | .LayerModifier _ coord => if coord = c then none else some s

/-- State::get_layer. -/
def State.get_layer : State → Option Nat
  | .LayerModifier v _ => some v
  | _ => none

/-- Layout from firmware/keyberon/src/layout.rs: the static layer table,
the default layer and the stack of active states. -/
structure Layout where
  layers : List (List (List Action))
  default_layer : Nat
  states : List State
deriving DecidableEq, Repr

/-- Layout::new. -/
def Layout.new (layers : List (List (List Action))) : Layout :=
  { layers := layers, default_layer := 0, states := [] }

/-- Layout::keycodes. -/
def Layout.keycodes (l : Layout) : List Nat :=
  l.states.filterMap State.keycode

/-- Layout::current_layer: the first LayerModifier value replaces the
default layer, the remaining LayerModifier values are added to it. -/
def Layout.current_layer (l : Layout) : Nat :=
  match l.states.filterMap State.get_layer with
  | [] => l.default_layer
  | x :: rest => rest.foldl (fun layer v => layer + v) x

/-- The bounds-checked three-level table lookup of
Layout::press_as_action. -/
def getCell (layers : List (List (List Action))) (layer : Nat)
    (coord : Nat × Nat) : Option Action :=
  ((layers.get? layer).bind fun l => l.get? coord.1).bind fun r =>
    r.get? coord.2

/-- Layout::press_as_action: absent cells are NoOp; a Trans cell off the
default layer retries at the default layer, and on the default layer is
NoOp. -/
def Layout.press_as_action (l : Layout) (coord : Nat × Nat) (layer : Nat) :
    Action :=
  match getCell l.layers layer coord with
  | none => .NoOp
  | some .Trans =>
    if layer ≠ l.default_layer then
      l.press_as_action coord l.default_layer
    else
      .NoOp
  | some (.KeyCode kc) => .KeyCode kc
  | some (.MultipleKeyCodes v) => .MultipleKeyCodes v
  | some (.Layer v) => .Layer v
  | some (.DefaultLayer v) => .DefaultLayer v
  | some .NoOp => .NoOp
termination_by if layer = l.default_layer then 0 else 1
decreasing_by simp_all

/-- The push of the heapless Vec of capacity 64 holding the states: a
push onto a full vector is silently dropped. -/
def vecPush (states : List State) (s : State) : List State :=
  if states.length < 64 then states ++ [s] else states

/-- Layout::do_action from firmware/keyberon/src/layout.rs. -/
def Layout.do_action (l : Layout) (action : Action) (coord : Nat × Nat) :
    Layout :=
  match action with
  | .NoOp => l
  | .Trans => l
  | .KeyCode keycode =>
    { l with states := vecPush l.states (.NormalKey keycode coord) }
  | .MultipleKeyCodes v =>
    { l with states := v.foldl (fun st keycode => vecPush st (.NormalKey keycode coord)) l.states }
  | .Layer value =>
    { l with states := vecPush l.states (.LayerModifier value coord) }
  | .DefaultLayer value =>
    if value < l.layers.length then
      { l with default_layer := value }
    else l

/-- Event from firmware/keyberon/src/layout.rs. -/
inductive Event where
  | Press (i j : Nat)
  | Release (i j : Nat)
deriving DecidableEq, Repr

/-- Layout::unstack. -/
def Layout.unstack (l : Layout) (event : Event) : Layout :=
  match event with
  | .Release i j =>
    { l with states := l.states.filterMap fun s => s.release (i, j) }
  | .Press i j =>
    l.do_action (l.press_as_action (i, j) l.current_layer) (i, j)

/-- Layout::event. -/
def Layout.event (l : Layout) (event : Event) : Layout :=
  l.unstack event

end keyb

theorem wrapSub32_offset (s j : Nat) : wrapSub32 (s + j) s = j % 4294967296 := by
  unfold wrapSub32
  omega

theorem wrapSub32_succ (t s : Nat) :
    wrapSub32 (t + 1) s = (wrapSub32 t s + 1) % 4294967296 := by
  unfold wrapSub32
  omega

theorem wrapSub32_lt (a b : Nat) : wrapSub32 a b < 4294967296 := by
  unfold wrapSub32
  omega

theorem runFrom_nil (q : QuickDraw) (t T : Nat) : runFrom q t [] T = (q, []) := rfl

theorem runFrom_cons (q : QuickDraw) (t T : Nat) (s : Bool) (rest : List Bool) :
    runFrom q t (s :: rest) T =
      ((runFrom (QuickDraw.step q s t T).1 (t + 1) rest T).1,
       (QuickDraw.step q s t T).2.toList ++
         (runFrom (QuickDraw.step q s t T).1 (t + 1) rest T).2) := rfl

theorem runFrom_stable_absorb (M : Bool) (T : Nat) :
    ∀ (m t : Nat),
    runFrom (.Stable M) t (List.replicate m M) T = (.Stable M, []) := by
  intro m
  induction m with
  | zero => intro t; rfl
  | succ k ih =>
    intro t
    rw [List.replicate_succ, runFrom_cons]
    simp [QuickDraw.step, ih]

theorem runFrom_bouncing_settles (P M : Bool) (T : Nat) (hT : T < 4294967296) :
    ∀ (m s t : Nat), 1 ≤ m → T ≤ wrapSub32 t s + (m - 1) →
    runFrom (.Bouncing P M s) t (List.replicate m M) T =
      (.Stable M, if P = M then [M] else []) := by
  intro m
  induction m with
  | zero => intro s t h; exact absurd h (by omega)
  | succ k ih =>
    intro s t _ hcond
    rw [List.replicate_succ, runFrom_cons]
    by_cases hr : wrapSub32 t s < T
    · have hstep : QuickDraw.step (.Bouncing P M s) M t T =
          (.Bouncing P M s, none) := by
        simp [QuickDraw.step, hr]
      have hk1 : 1 ≤ k := by omega
      have hnext : wrapSub32 (t + 1) s = wrapSub32 t s + 1 := by
        rw [wrapSub32_succ]
        exact Nat.mod_eq_of_lt (by omega)
      rw [hstep, ih s (t + 1) hk1 (by rw [hnext]; omega)]
      simp
    · have hstep : QuickDraw.step (.Bouncing P M s) M t T =
          (.Stable M, if P = M then some M else none) := by
        simp [QuickDraw.step, hr]
      rw [hstep, runFrom_stable_absorb]
      by_cases hpm : P = M <;> simp [hpm]

theorem runFrom_settles (M : Bool) (T : Nat) (hT1 : 1 ≤ T) (hT : T < 4294967296)
    (q : QuickDraw) (t m : Nat) (hm : T + 1 ≤ m) :
    (runFrom q t (List.replicate m M) T).1 = .Stable M := by
  cases q with
  | Stable b =>
    by_cases hb : b = M
    · subst hb; rw [runFrom_stable_absorb]
    · obtain ⟨k, rfl⟩ : ∃ k, m = k + 1 := ⟨m - 1, by omega⟩
      rw [List.replicate_succ, runFrom_cons]
      have hstep : QuickDraw.step (.Stable b) M t T =
          (.Bouncing b M t, some M) := by
        simp [QuickDraw.step]
        intro h; exact absurd h.symm hb
      rw [hstep, runFrom_bouncing_settles b M T hT k t (t + 1) (by omega)
        (by rw [wrapSub32_offset]; omega)]
  | Bouncing p c s =>
    by_cases hc : c = M
    · rw [hc]
      rw [runFrom_bouncing_settles p M T hT m s t (by omega) (by omega)]
    · obtain ⟨k, rfl⟩ : ∃ k, m = k + 1 := ⟨m - 1, by omega⟩
      rw [List.replicate_succ, runFrom_cons]
      have hstep : QuickDraw.step (.Bouncing p c s) M t T =
          (.Bouncing p M t, none) := by
        simp [QuickDraw.step]
        intro h; exact absurd h.symm hc
      rw [hstep, runFrom_bouncing_settles p M T hT k t (t + 1) (by omega)
        (by rw [wrapSub32_offset]; omega)]

theorem runFrom_append (xs ys : List Bool) (T : Nat) :
    ∀ (q : QuickDraw) (t : Nat),
    runFrom q t (xs ++ ys) T =
      ((runFrom (runFrom q t xs T).1 (t + xs.length) ys T).1,
       (runFrom q t xs T).2 ++
         (runFrom (runFrom q t xs T).1 (t + xs.length) ys T).2) := by
  induction xs with
  | nil => intro q t; simp [runFrom]
  | cons s rest ih =>
    intro q t
    rw [List.cons_append, runFrom_cons, runFrom_cons, ih]
    have harith : t + 1 + rest.length = t + (rest.length + 1) := by omega
    simp [List.append_assoc, harith]

theorem step_level_cases (q : QuickDraw) (s : Bool) (now T : Nat) :
    ((QuickDraw.step q s now T).2 = none ∧
      (QuickDraw.step q s now T).1.level = q.level) ∨
    ((QuickDraw.step q s now T).2 = some (!q.level) ∧
      (QuickDraw.step q s now T).1.level = !q.level) := by
  cases q with
  | Stable prior =>
    cases s <;> cases prior <;> simp [QuickDraw.step, QuickDraw.level]
  | Bouncing prior current since =>
    by_cases hr : wrapSub32 now since < T <;>
      cases s <;> cases prior <;> cases current <;>
        simp [QuickDraw.step, QuickDraw.level, hr]

theorem runFrom_alt (T : Nat) :
    ∀ (ss : List Bool) (q : QuickDraw) (t : Nat),
    altFrom q.level (runFrom q t ss T).2 ∧
    (runFrom q t ss T).1.level =
      (if (runFrom q t ss T).2.length % 2 = 0 then q.level else !q.level) := by
  intro ss
  induction ss with
  | nil => intro q t; simp [runFrom, altFrom]
  | cons s rest ih =>
    intro q t
    rw [runFrom_cons]
    obtain ⟨ha, hp⟩ := ih (QuickDraw.step q s t T).1 (t + 1)
    rcases step_level_cases q s t T with ⟨he, hl⟩ | ⟨he, hl⟩
    · rw [he]
      rw [hl] at ha hp
      simpa using ⟨ha, hp⟩
    · rw [he]
      rw [hl] at ha hp
      by_cases hpar :
          (runFrom (QuickDraw.step q s t T).1 (t + 1) rest T).2.length % 2 = 0
      · simp only [hpar, if_pos] at hp
        refine ⟨⟨rfl, ha⟩, ?_⟩
        simp only [Option.toList_some, List.singleton_append, List.length_cons]
        have hodd :
            ((runFrom (QuickDraw.step q s t T).1 (t + 1) rest T).2.length + 1) %
              2 ≠ 0 := by
          omega
        simp [hodd, hp]
      · simp only [hpar, if_neg, not_false_iff] at hp
        refine ⟨⟨rfl, ha⟩, ?_⟩
        simp only [Option.toList_some, List.singleton_append, List.length_cons]
        have heven :
            ((runFrom (QuickDraw.step q s t T).1 (t + 1) rest T).2.length + 1) %
              2 = 0 := by
          omega
        simp [heven, hp]

theorem altFrom_cancel :
    ∀ (n : Nat) (es : List Bool) (l : Bool), es.length ≤ n → altFrom l es →
    cancelEdges es = if es.length % 2 = 0 then [] else [!l] := by
  intro n
  induction n with
  | zero =>
    intro es l hlen _
    have hnil : es = [] := List.eq_nil_of_length_eq_zero (by omega)
    subst hnil
    simp [cancelEdges]
  | succ k ih =>
    intro es l hlen halt
    match es with
    | [] => simp [cancelEdges]
    | [e] =>
      obtain ⟨he, -⟩ := halt
      subst he
      simp [cancelEdges, cancelStep]
    | e1 :: e2 :: rest =>
      obtain ⟨he1, he2, hrest⟩ := halt
      subst he1
      subst he2
      simp only [Bool.not_not] at hrest hlen ⊢
      have hr : rest.length ≤ k := by
        simp [List.length_cons] at hlen
        omega
      have hstep : cancelEdges ((!l) :: l :: rest) = cancelEdges rest := by
        simp [cancelEdges, cancelStep]
      rw [hstep, ih rest l hr hrest]
      have hmod : ((!l) :: l :: rest).length % 2 = rest.length % 2 := by
        simp [List.length_cons]
        omega
      rw [hmod]

theorem foldl_add_eq_add_sum :
    ∀ (rest : List Nat) (x : Nat),
    rest.foldl (fun layer v => layer + v) x = x + rest.sum := by
  intro rest
  induction rest with
  | nil => intro x; simp
  | cons y ys ih =>
    intro x
    simp only [List.foldl_cons, List.sum_cons, ih]
    omega

theorem runPairs_cons (q : QuickDraw) (s : Bool) (now T : Nat)
    (rest : List (Bool × Nat)) :
    runPairs q ((s, now) :: rest) T =
      ((runPairs (QuickDraw.step q s now T).1 rest T).1,
       (QuickDraw.step q s now T).2.toList ++
         (runPairs (QuickDraw.step q s now T).1 rest T).2) := rfl

theorem transitions_cons_cons (a b : Bool) (l : List Bool) :
    transitions (a :: b :: l) =
      (if a ≠ b then 1 else 0) + transitions (b :: l) := rfl

theorem step_lastSample (q : QuickDraw) (s : Bool) (now T : Nat) :
    (QuickDraw.step q s now T).1.lastSample = s := by
  cases q with
  | Stable b =>
    cases b <;> cases s <;> simp [QuickDraw.step, QuickDraw.lastSample]
  | Bouncing p c since =>
    by_cases hr : wrapSub32 now since < T <;>
      cases p <;> cases c <;> cases s <;>
        simp [QuickDraw.step, QuickDraw.lastSample, hr]

theorem step_slack_bound (q : QuickDraw) (s : Bool) (now T : Nat) :
    (QuickDraw.step q s now T).2.toList.length +
        (QuickDraw.step q s now T).1.slack ≤
      (if q.lastSample ≠ s then 1 else 0) + q.slack := by
  cases q with
  | Stable b =>
    cases b <;> cases s <;>
      simp [QuickDraw.step, QuickDraw.lastSample, QuickDraw.slack]
  | Bouncing p c since =>
    by_cases hr : wrapSub32 now since < T <;>
      cases p <;> cases c <;> cases s <;>
        simp [QuickDraw.step, QuickDraw.lastSample, QuickDraw.slack, hr]

theorem runPairs_edge_bound :
    ∀ (ps : List (Bool × Nat)) (q : QuickDraw) (T : Nat),
    (runPairs q ps T).2.length + (runPairs q ps T).1.slack ≤
      transitions (q.lastSample :: ps.map Prod.fst) + q.slack := by
  intro ps
  induction ps with
  | nil => intro q T; simp [runPairs, transitions]
  | cons p rest ih =>
    obtain ⟨s, now⟩ := p
    intro q T
    rw [runPairs_cons]
    have hih := ih (QuickDraw.step q s now T).1 T
    rw [step_lastSample] at hih
    have hstep := step_slack_bound q s now T
    have hmap : ((s, now) :: rest).map Prod.fst = s :: rest.map Prod.fst := rfl
    rw [hmap, transitions_cons_cons]
    simp only [List.length_append]
    omega

theorem reportRow_eq_held (layout : List (List Nat)) (col : Nat) :
    ∀ (trig : List trigger.QuickDraw) (row : Nat) (rep : List Nat),
    scan.reportRow layout col row trig rep =
      scan.reportRowHeld layout col row
        (trig.map trigger.QuickDraw.is_pressed) rep := by
  intro trig
  induction trig with
  | nil => intro row rep; rfl
  | cons t rest ih =>
    intro row rep
    simp only [List.map_cons, scan.reportRow, scan.reportRowHeld, ih]

theorem reportCols_eq_held (layout : List (List Nat)) :
    ∀ (triggers : List (List trigger.QuickDraw)) (col : Nat) (rep : List Nat),
    scan.reportCols layout col triggers rep =
      scan.reportColsHeld layout col
        (triggers.map (List.map trigger.QuickDraw.is_pressed)) rep := by
  intro triggers
  induction triggers with
  | nil => intro col rep; rfl
  | cons tr rest ih =>
    intro col rep
    simp only [List.map_cons, scan.reportCols, scan.reportColsHeld, ih,
      reportRow_eq_held]

/-- C1: QuickDraw::step conforms to the five-row transition table of the
spec, for every state and (sample, now) input.  The first five conjuncts
cover the emitting step of firmware/src/lib.rs (S is wrapSub32 now since
at least T); the last five cover the step of fw/src/trigger.rs (u8 time)
together with the output that fw/src/scan.rs derives from it through
is_pressed, which matches the same table. -/
theorem C1_quickdraw_step_table :
    (∀ (N : Bool) (now T : Nat),
      QuickDraw.step (.Stable N) N now T = (.Stable N, none)) ∧
    (∀ (N : Bool) (now T : Nat),
      QuickDraw.step (.Stable N) (!N) now T =
        (.Bouncing N (!N) now, some (!N))) ∧
    (∀ (P C : Bool) (since now T : Nat),
      QuickDraw.step (.Bouncing P C since) (!C) now T =
        (.Bouncing P (!C) now, none)) ∧
    (∀ (P C : Bool) (since now T : Nat), wrapSub32 now since < T →
      QuickDraw.step (.Bouncing P C since) C now T =
        (.Bouncing P C since, none)) ∧
    (∀ (P C : Bool) (since now T : Nat), T ≤ wrapSub32 now since →
      QuickDraw.step (.Bouncing P C since) C now T =
        (.Stable C, if P = C then some C else none)) ∧
    (∀ (T : Nat) (N : Bool) (now : Nat),
      trigger.QuickDraw.step T (.Stable N) N now = .Stable N) ∧
    (∀ (T : Nat) (N : Bool) (now : Nat),
      trigger.QuickDraw.step T (.Stable N) (!N) now = .Bouncing N (!N) now ∧
      scan.pressRelease (.Stable N) (.Bouncing N (!N) now) = some (!N)) ∧
    (∀ (T : Nat) (P C : Bool) (since now : Nat),
      trigger.QuickDraw.step T (.Bouncing P C since) (!C) now =
        .Bouncing P (!C) now ∧
      scan.pressRelease (.Bouncing P C since) (.Bouncing P (!C) now) = none) ∧
    (∀ (T : Nat) (P C : Bool) (since now : Nat), wrapSub8 now since < T →
      trigger.QuickDraw.step T (.Bouncing P C since) C now =
        .Bouncing P C since) ∧
    (∀ (T : Nat) (P C : Bool) (since now : Nat), T ≤ wrapSub8 now since →
      trigger.QuickDraw.step T (.Bouncing P C since) C now = .Stable C ∧
      scan.pressRelease (.Bouncing P C since) (.Stable C) =
        (if P = C then some C else none)) := by
  refine ⟨?_, ?_, ?_, ?_, ?_, ?_, ?_, ?_, ?_, ?_⟩
  · intro N now T
    cases N <;> simp [QuickDraw.step]
  · intro N now T
    cases N <;> simp [QuickDraw.step]
  · intro P C since now T
    cases C <;> simp [QuickDraw.step]
  · intro P C since now T h
    cases C <;> simp [QuickDraw.step, h]
  · intro P C since now T h
    cases C <;> cases P <;> simp [QuickDraw.step, Nat.not_lt.mpr h]
  · intro T N now
    cases N <;> simp [trigger.QuickDraw.step]
  · intro T N now
    cases N <;>
      simp [trigger.QuickDraw.step, scan.pressRelease,
        trigger.QuickDraw.is_pressed]
  · intro T P C since now
    cases C <;> cases P <;>
      simp [trigger.QuickDraw.step, scan.pressRelease,
        trigger.QuickDraw.is_pressed]
  · intro T P C since now h
    cases C <;> simp [trigger.QuickDraw.step, h]
  · intro T P C since now h
    cases C <;> cases P <;>
      simp [trigger.QuickDraw.step, scan.pressRelease,
        trigger.QuickDraw.is_pressed, Nat.not_lt.mpr h]

/-- Witness for C1 at concrete inputs: a Bouncing cell that is not yet
stable stays put with no output, and one past the window with prior
equal to current settles and emits. -/
theorem C1_step_table_witness :
    (wrapSub32 5 3 < 10 ∧
      QuickDraw.step (.Bouncing true false 3) false 5 10 =
        (.Bouncing true false 3, none)) ∧
    (10 ≤ wrapSub32 20 3 ∧
      QuickDraw.step (.Bouncing true true 3) true 20 10 =
        (.Stable true, some true)) := by
  refine ⟨⟨by decide, ?_⟩, ⟨by decide, ?_⟩⟩
  · exact C1_quickdraw_step_table.2.2.2.1 true false 3 5 10 (by decide)
  · have h := C1_quickdraw_step_table.2.2.2.2.1 true true 3 20 10 (by decide)
    simpa using h

/-- C2 counterexample: with stable window T = 75 (the deployed value), a
cell starting in Stable(false) fed a suffix of exactly T = 75 consecutive
samples equal to true at successive ticks ends in a Bouncing state, not
in Stable(true): settling requires the elapsed time since the first equal
sample to reach T, which happens only at the (T+1)-th equal sample. -/
theorem C2_counterexample_suffix_T :
    (runFrom (QuickDraw.Stable false) 0 (List.replicate 75 true) 75).1 =
      QuickDraw.Bouncing false true 0 ∧
    QuickDraw.Bouncing false true 0 ≠ QuickDraw.Stable true := by
  decide

/-- C2 (amended): for every cell starting in Stable(N) and every input
sequence at successive ticks whose suffix consists of at least T + 1
consecutive samples equal to M, with 1 ≤ T < 2^32 (T is a u32), the cell
ends in Stable(M), and the net effect of the emitted edges, after
cancelling every speculative edge against a later opposite edge, is
empty if M = N and a single N-to-M edge otherwise. -/
theorem C2_debouncer_settles (N M : Bool) (T t m : Nat) (pre : List Bool)
    (hT1 : 1 ≤ T) (hT : T < 4294967296) (hm : T + 1 ≤ m) :
    (runFrom (.Stable N) t (pre ++ List.replicate m M) T).1 = .Stable M ∧
    cancelEdges (runFrom (.Stable N) t (pre ++ List.replicate m M) T).2 =
      (if M = N then [] else [M]) := by
  have hfinal :
      (runFrom (.Stable N) t (pre ++ List.replicate m M) T).1 = .Stable M := by
    rw [runFrom_append]
    exact runFrom_settles M T hT1 hT _ _ m hm
  refine ⟨hfinal, ?_⟩
  obtain ⟨halt, hpar⟩ :=
    runFrom_alt T (pre ++ List.replicate m M) (.Stable N) t
  rw [hfinal] at hpar
  simp only [QuickDraw.level] at halt hpar
  have hcan := altFrom_cancel
    (runFrom (.Stable N) t (pre ++ List.replicate m M) T).2.length
    (runFrom (.Stable N) t (pre ++ List.replicate m M) T).2 N (le_refl _) halt
  by_cases heven :
      (runFrom (.Stable N) t (pre ++ List.replicate m M) T).2.length % 2 = 0
  · rw [if_pos heven] at hpar
    rw [if_pos heven] at hcan
    rw [hcan, if_pos hpar]
  · rw [if_neg heven] at hpar
    rw [if_neg heven] at hcan
    rw [hcan]
    have hne : M ≠ N := by
      cases N <;> simp_all
    rw [if_neg hne, hpar]

/-- Witness for C2 at a concrete run: scenario S5 shape, T = 10, one
spurious down sample followed by 11 up samples cancels to an empty net
effect and ends Stable(false). -/
theorem C2_settles_witness :
    (1 ≤ 10 ∧ 10 < 4294967296 ∧ 10 + 1 ≤ 11) ∧
    ((runFrom (.Stable false) 0 ([true] ++ List.replicate 11 false) 10).1 =
        .Stable false ∧
      cancelEdges
          (runFrom (.Stable false) 0
            ([true] ++ List.replicate 11 false) 10).2 =
        (if false = false then [] else [false])) :=
  ⟨⟨by decide, by decide, by decide⟩,
    C2_debouncer_settles false false 10 0 11 [true]
      (by decide) (by decide) (by decide)⟩

/-- C3: unpacking a packed wire frame is the identity on events whose
row and column lie in 0..7, for either value of the break flag. -/
theorem C3_wire_roundtrip (e : KeyEvent) (hr : e.row < 8) (hc : e.col < 8) :
    KeyEvent.unpack (KeyEvent.pack e) = e := by
  obtain ⟨r, c, k⟩ := e
  simp only [KeyEvent.pack, KeyEvent.unpack, KeyEvent.mk.injEq]
  simp only at hr hc
  cases k <;> simp <;> constructor <;> omega

/-- Witness for C3 at a concrete event. -/
theorem C3_roundtrip_witness :
    (2 : Nat) < 8 ∧ (4 : Nat) < 8 ∧
    KeyEvent.unpack (KeyEvent.pack { row := 2, col := 4, brk := false }) =
      { row := 2, col := 4, brk := false } :=
  ⟨by decide, by decide,
    C3_wire_roundtrip { row := 2, col := 4, brk := false }
      (by decide) (by decide)⟩

/-- C4 counterexample: the scanning half (tick in fw/src/bin/left.rs)
packs a release event with brk = false, not brk = true as the claim
states. -/
theorem C4_counterexample_release_brk :
    (tick_pack_event { coord := (0, 0), state := .Release }).brk = false := by
  decide

/-- C4 (amended): on the fw half-to-half link the brk flag marks a press,
not a release: tick packs an event with brk = true exactly when it is a
press, uart_rx decodes brk = true as Press and brk = false as Release,
and the press/release state of an event survives the pack-unpack trip. -/
theorem C4_brk_marks_press :
    (∀ e : fwkeyb.Event,
      (tick_pack_event e).brk = decide (e.state = fwkeyb.LogicalState.Press)) ∧
    (∀ b : Nat, (KeyEvent.unpack b).brk = true →
      (uart_rx_decode b).state = fwkeyb.LogicalState.Press) ∧
    (∀ b : Nat, (KeyEvent.unpack b).brk = false →
      (uart_rx_decode b).state = fwkeyb.LogicalState.Release) ∧
    (∀ e : fwkeyb.Event,
      (uart_rx_decode (KeyEvent.pack (tick_pack_event e))).state = e.state) := by
  refine ⟨?_, ?_, ?_, ?_⟩
  · intro e; rfl
  · intro b h; simp [uart_rx_decode, h]
  · intro b h; simp [uart_rx_decode, h]
  · intro e
    obtain ⟨⟨i, j⟩, st⟩ := e
    cases st <;>
      simp [uart_rx_decode, tick_pack_event, KeyEvent.pack, KeyEvent.unpack,
        Nat.add_mod, Nat.mul_mod]

/-- Witness for C4 at a concrete byte: byte 1 has the brk bit set and
decodes to a press. -/
theorem C4_brk_witness :
    (KeyEvent.unpack 1).brk = true ∧
    (uart_rx_decode 1).state = fwkeyb.LogicalState.Press :=
  ⟨by decide, C4_brk_marks_press.2.1 1 (by decide)⟩

/-- C5 counterexample: on a one-layer layout whose single cell is
Layer(1), pressing that cell leaves current_layer at 1, outside the
valid range [0, 1): the sum of layer modifiers is neither saturated nor
clamped into the valid layer range. -/
theorem C5_counterexample_layer_range :
    keyb.Layout.current_layer
        (keyb.Layout.event (keyb.Layout.new [[[keyb.Action.Layer 1]]])
          (keyb.Event.Press 0 0)) = 1 ∧
    (keyb.Layout.new [[[keyb.Action.Layer 1]]]).layers.length = 1 ∧
    ¬ (1 < 1) := by
  refine ⟨?_, rfl, by omega⟩
  simp [keyb.Layout.event, keyb.Layout.unstack, keyb.Layout.press_as_action,
    keyb.getCell, keyb.Layout.current_layer, keyb.Layout.do_action,
    keyb.vecPush, keyb.State.get_layer, keyb.Layout.new]

/-- C5 (amended): in every layout state, current_layer equals the
default layer when no LayerModifier state is active and otherwise the
plain sum of the active LayerModifier values, with the default layer not
added and with no clamping into the valid range. -/
theorem C5_current_layer_formula (l : keyb.Layout) :
    keyb.Layout.current_layer l =
      (if (l.states.filterMap keyb.State.get_layer).isEmpty then
        l.default_layer
      else (l.states.filterMap keyb.State.get_layer).sum) := by
  unfold keyb.Layout.current_layer
  cases h : l.states.filterMap keyb.State.get_layer with
  | nil => simp
  | cons x rest => simp [foldl_add_eq_add_sum]

/-- C6: press lookup resolves transparency as specified: an absent cell
is NoOp; a Trans cell off the default layer retries at the default
layer; a Trans cell on the default layer is NoOp; and a press at a
coordinate that is Trans on the active layer and KeyCode(k) on the
default layer pushes NormalKey k (producing k). -/
theorem C6_press_lookup_transparency :
    (∀ (l : keyb.Layout) (coord : Nat × Nat) (layer : Nat),
      keyb.getCell l.layers layer coord = none →
      l.press_as_action coord layer = .NoOp) ∧
    (∀ (l : keyb.Layout) (coord : Nat × Nat) (layer : Nat),
      keyb.getCell l.layers layer coord = some .Trans →
      layer ≠ l.default_layer →
      l.press_as_action coord layer = l.press_as_action coord l.default_layer) ∧
    (∀ (l : keyb.Layout) (coord : Nat × Nat),
      keyb.getCell l.layers l.default_layer coord = some .Trans →
      l.press_as_action coord l.default_layer = .NoOp) ∧
    (∀ (l : keyb.Layout) (i j k : Nat),
      keyb.getCell l.layers l.current_layer (i, j) = some .Trans →
      keyb.getCell l.layers l.default_layer (i, j) = some (.KeyCode k) →
      l.states.length < 64 →
      (l.event (.Press i j)).states = l.states ++ [.NormalKey k (i, j)]) := by
  have h1 : ∀ (l : keyb.Layout) (coord : Nat × Nat) (layer : Nat),
      keyb.getCell l.layers layer coord = none →
      l.press_as_action coord layer = .NoOp := by
    intro l coord layer h
    rw [keyb.Layout.press_as_action, h]
  have h2 : ∀ (l : keyb.Layout) (coord : Nat × Nat) (layer : Nat),
      keyb.getCell l.layers layer coord = some .Trans →
      layer ≠ l.default_layer →
      l.press_as_action coord layer =
        l.press_as_action coord l.default_layer := by
    intro l coord layer h hne
    rw [keyb.Layout.press_as_action, h]
    simp [hne]
  have h3 : ∀ (l : keyb.Layout) (coord : Nat × Nat),
      keyb.getCell l.layers l.default_layer coord = some .Trans →
      l.press_as_action coord l.default_layer = .NoOp := by
    intro l coord h
    rw [keyb.Layout.press_as_action, h]
    simp
  have h4 : ∀ (l : keyb.Layout) (coord : Nat × Nat) (k : Nat),
      keyb.getCell l.layers l.default_layer coord = some (.KeyCode k) →
      l.press_as_action coord l.default_layer = .KeyCode k := by
    intro l coord k h
    rw [keyb.Layout.press_as_action, h]
  refine ⟨h1, h2, h3, ?_⟩
  intro l i j k hc hd hlen
  have hne : l.current_layer ≠ l.default_layer := by
    intro heq
    rw [heq, hd] at hc
    exact absurd hc (by simp)
  show (l.do_action (l.press_as_action (i, j) l.current_layer) (i, j)).states = _
  rw [h2 l (i, j) l.current_layer hc hne, h4 l (i, j) k hd]
  simp [keyb.Layout.do_action, keyb.vecPush, hlen]

/-- Witness for C6 at a concrete layout: layer 1 is active through a held
LayerModifier, its cell is Trans, the default layer cell is KeyCode 7,
and the press pushes NormalKey 7. -/
theorem C6_transparency_witness :
    (keyb.getCell [[[keyb.Action.KeyCode 7]], [[keyb.Action.Trans]]]
        (keyb.Layout.current_layer
          { layers := [[[keyb.Action.KeyCode 7]], [[keyb.Action.Trans]]],
            default_layer := 0,
            states := [keyb.State.LayerModifier 1 (9, 9)] }) (0, 0) =
      some keyb.Action.Trans ∧
    keyb.getCell [[[keyb.Action.KeyCode 7]], [[keyb.Action.Trans]]] 0 (0, 0) =
      some (keyb.Action.KeyCode 7) ∧
    ([keyb.State.LayerModifier 1 (9, 9)] : List keyb.State).length < 64) ∧
    (keyb.Layout.event
        { layers := [[[keyb.Action.KeyCode 7]], [[keyb.Action.Trans]]],
          default_layer := 0,
          states := [keyb.State.LayerModifier 1 (9, 9)] }
        (.Press 0 0)).states =
      [keyb.State.LayerModifier 1 (9, 9)] ++
        [keyb.State.NormalKey 7 (0, 0)] :=
  ⟨⟨by decide, by decide, by decide⟩,
    C6_press_lookup_transparency.2.2.2
      { layers := [[[keyb.Action.KeyCode 7]], [[keyb.Action.Trans]]],
        default_layer := 0,
        states := [keyb.State.LayerModifier 1 (9, 9)] }
      0 0 7 (by decide) (by decide) (by decide)⟩

/-- C7 counterexample: packing the event row = 5, col = 3, brk = true
yields the byte 0b10101101 (173), not the byte 0b10011101 (157) the
claim states: packed_struct msb0 numbering places row in the three most
significant bits and brk in the least significant bit. -/
theorem C7_counterexample_packed_byte :
    KeyEvent.pack { row := 5, col := 3, brk := true } = 0b10101101 ∧
    (0b10101101 : Nat) ≠ 0b10011101 := by
  decide

/-- C7 (amended): packing row = 5, col = 3, brk = true produces the byte
0b10101101; in MSB-first (msb0) numbering the row occupies bits 0..2,
the column bits 3..5 and the break flag bit 7, which are the most
significant three bits, the next three bits and the least significant
bit of the octet respectively; unpacking that byte reproduces the
event. -/
theorem C7_wire_byte :
    KeyEvent.pack { row := 5, col := 3, brk := true } = 0b10101101 ∧
    KeyEvent.unpack 0b10101101 = { row := 5, col := 3, brk := true } := by
  decide

/-- C8 counterexample: from Stable(false) a single sample true emits one
edge while the raw sample sequence of length one has zero adjacent
unequal pairs. -/
theorem C8_counterexample_first_edge :
    (runPairs (QuickDraw.Stable false) [(true, 0)] 1).2.length = 1 ∧
    transitions [true] = 0 := by
  decide

/-- C8 (amended): for every debouncer cell in a Stable state and every
input sequence of (sample, tick) pairs, the number of emitted edges is
at most the number of transitions (adjacent unequal pairs) in the
sequence formed by the initial stable value followed by the raw
samples. -/
theorem C8_edge_bound (b : Bool) (T : Nat) (ps : List (Bool × Nat)) :
    (runPairs (.Stable b) ps T).2.length ≤
      transitions (b :: ps.map Prod.fst) := by
  have h := runPairs_edge_bound ps (.Stable b) T
  simp only [QuickDraw.slack, QuickDraw.lastSample] at h
  omega

/-- C9: executing DefaultLayer(v) on press pushes no state; it sets the
default layer to v when v is a valid layer index, and leaves the whole
layout unchanged when v is out of range. -/
theorem C9_default_layer_action (l : keyb.Layout) (value : Nat)
    (coord : Nat × Nat) :
    (keyb.Layout.do_action l (.DefaultLayer value) coord).states = l.states ∧
    (value < l.layers.length →
      keyb.Layout.do_action l (.DefaultLayer value) coord =
        { l with default_layer := value }) ∧
    (¬ value < l.layers.length →
      keyb.Layout.do_action l (.DefaultLayer value) coord = l) := by
  refine ⟨?_, ?_, ?_⟩
  · by_cases h : value < l.layers.length <;> simp [keyb.Layout.do_action, h]
  · intro h; simp [keyb.Layout.do_action, h]
  · intro h; simp [keyb.Layout.do_action, h]

/-- Witness for C9 at a concrete layout: an in-range DefaultLayer press
sets the default layer and pushes nothing, and an out-of-range one is
ignored. -/
theorem C9_default_layer_witness :
    (0 < 1 ∧
      keyb.Layout.do_action (keyb.Layout.new [[[keyb.Action.NoOp]]])
          (.DefaultLayer 0) (0, 0) =
        { keyb.Layout.new [[[keyb.Action.NoOp]]] with default_layer := 0 }) ∧
    (¬ (5 < 1) ∧
      keyb.Layout.do_action (keyb.Layout.new [[[keyb.Action.NoOp]]])
          (.DefaultLayer 5) (0, 0) =
        keyb.Layout.new [[[keyb.Action.NoOp]]]) :=
  ⟨⟨by decide,
      (C9_default_layer_action (keyb.Layout.new [[[keyb.Action.NoOp]]]) 0
        (0, 0)).2.1 (by decide)⟩,
    ⟨by decide,
      (C9_default_layer_action (keyb.Layout.new [[[keyb.Action.NoOp]]]) 5
        (0, 0)).2.2 (by decide)⟩⟩

/-- C10: a Bouncing QuickDraw cell is_pressed at the negation of its
prior stable value, whatever the currently observed sample and
timestamp; and report depends on the trigger matrix only through the
is_pressed values, so a bouncing key is counted at its speculative value
for the whole settling window. -/
theorem C10_bouncing_reports_speculative :
    (∀ (p c : Bool) (s : Nat),
      trigger.QuickDraw.is_pressed (.Bouncing p c s) = !p) ∧
    (∀ (layout : List (List Nat)) (triggers : List (List trigger.QuickDraw)),
      scan.report layout triggers =
        scan.reportHeld layout
          (triggers.map (List.map trigger.QuickDraw.is_pressed))) := by
  constructor
  · intro p c s; rfl
  · intro layout triggers
    exact reportCols_eq_held layout triggers 0 []
